import Mathlib

/-!
Verification of the CaliaDash inventory engine (src/app.py).

The development shallowly embeds the normalization, classification and
aggregation logic of the application:

* `_normalize_column`  — the column-label normalization (app.py lines 34-45);
* `normalizeRecord` / `load_inventory` — the per-row dataframe transformation
  of `load_inventory` (app.py lines 52-98): value coercions, derived boolean
  flags, reference-depreciation overrides and priority classification;
* `apply_priority_filter` (app.py lines 256-259);
* `compute_insights` (app.py lines 112-155).

Numeric columns are modelled with `ℚ` (the Python code uses floats, but no
property below depends on rounding).  Text columns are `String`; columns the
source guards with `fillna` are `Option String` on the raw side.  Pandas
vectorized operations are modelled element-wise over `List`.
-/

namespace CaliaDash

/-- Models Python's whitespace test used by `str.strip()` / `str.split()`:
true exactly on the code points Python treats as whitespace. -/
def pyIsSpace (c : Char) : Bool :=
  c.toNat = 9 || c.toNat = 10 || c.toNat = 11 || c.toNat = 12 || c.toNat = 13 ||
  (28 ≤ c.toNat && c.toNat ≤ 31) || c.toNat = 32 || c.toNat = 133 || c.toNat = 160 ||
  c.toNat = 5760 || (8192 ≤ c.toNat && c.toNat ≤ 8202) || c.toNat = 8232 ||
  c.toNat = 8233 || c.toNat = 8239 || c.toNat = 8287 || c.toNat = 12288

/-- Character class `[0-9a-z]` of the regex in `_normalize_column`. -/
def isLowerAlnum (c : Char) : Bool :=
  (48 ≤ c.toNat && c.toNat ≤ 57) || (97 ≤ c.toNat && c.toNat ≤ 122)

/-- Character class `[0-9a-z ]` (the complement of the substituted class). -/
def isAlnumOrSpace (c : Char) : Bool :=
  isLowerAlnum c || c.toNat = 32

/-- Models `str.lower()` on the ASCII range (every call site below either runs
after the ASCII fold or is compared against ASCII-only literals). -/
def lowerChar (c : Char) : Char :=
  if 65 ≤ c.toNat ∧ c.toNat ≤ 90 then Char.ofNat (c.toNat + 32) else c

/-- Element-wise `str.lower()`. -/
def pyLower (l : List Char) : List Char := l.map lowerChar

/-- Models `str.strip()` (no argument): drop whitespace from both ends. -/
def pyStrip (l : List Char) : List Char :=
  ((l.dropWhile pyIsSpace).reverse.dropWhile pyIsSpace).reverse

/-- Models `unicodedata.normalize("NFKD", ·).encode("ascii", "ignore")` on one
character: an ASCII character is kept unchanged (NFKD is the identity on
ASCII); a non-ASCII character contributes the ASCII part of its NFKD
decomposition, given here by a table of the Latin accented letters that occur
in the spreadsheet headers, and nothing otherwise (the `"ignore"` encoding
drops characters without an ASCII decomposition). -/
def asciiFoldChar (c : Char) : List Char :=
  if c.toNat < 128 then [c]
  else if c ∈ ['á', 'à', 'â', 'ã', 'ä', 'å'] then ['a']
  else if c ∈ ['Á', 'À', 'Â', 'Ã', 'Ä', 'Å'] then ['A']
  else if c ∈ ['é', 'è', 'ê', 'ë'] then ['e']
  else if c ∈ ['É', 'È', 'Ê', 'Ë'] then ['E']
  else if c ∈ ['í', 'ì', 'î', 'ï'] then ['i']
  else if c ∈ ['Í', 'Ì', 'Î', 'Ï'] then ['I']
  else if c ∈ ['ó', 'ò', 'ô', 'õ', 'ö'] then ['o']
  else if c ∈ ['Ó', 'Ò', 'Ô', 'Õ', 'Ö'] then ['O']
  else if c ∈ ['ú', 'ù', 'û', 'ü'] then ['u']
  else if c ∈ ['Ú', 'Ù', 'Û', 'Ü'] then ['U']
  else if c = 'ç' then ['c']
  else if c = 'Ç' then ['C']
  else if c = 'ñ' then ['n']
  else if c = 'Ñ' then ['N']
  else []

/-- NFKD normalization followed by ASCII encode/decode with `"ignore"`. -/
def asciiFold (l : List Char) : List Char := (l.map asciiFoldChar).flatten

/-- Models `.replace("\n", " ")` (the pattern is a single character). -/
def replaceNewlines (l : List Char) : List Char :=
  l.map (fun c => if c = '\n' then ' ' else c)

/-- Models `re.sub(r"[^0-9a-z ]+", " ", ·)` as a left-to-right scan: the Bool
argument records whether the scanner is inside a run of substituted
characters, so each maximal run contributes a single space. -/
def reSubAux : Bool → List Char → List Char
  | _, [] => []
  | inRun, c :: cs =>
    if isAlnumOrSpace c then c :: reSubAux false cs
    else if inRun then reSubAux true cs else ' ' :: reSubAux true cs

/-- Replacement of every maximal run outside `[0-9a-z ]` by one space. -/
def reSubRuns (l : List Char) : List Char := reSubAux false l

/-- Models Python `str.split()` with no argument, with explicit recursion
fuel: a leading whitespace character is skipped, otherwise the maximal
non-whitespace word is taken and splitting continues on the rest.  The fuel
(first argument) only bounds the recursion depth; `pySplit` instantiates it
with the input length, which always suffices. -/
def pySplitF : Nat → List Char → List (List Char)
  | _, [] => []
  | 0, _ :: _ => []
  | fuel + 1, c :: cs =>
    if pyIsSpace c then pySplitF fuel cs
    else (c :: cs.takeWhile (fun d => !pyIsSpace d)) ::
      pySplitF fuel (cs.dropWhile (fun d => !pyIsSpace d))

/-- Models Python `str.split()` with no argument: maximal runs of
non-whitespace characters, with no empty words. -/
def pySplit (l : List Char) : List (List Char) := pySplitF l.length l

/-- Models `sep.join(words)` for a one-character separator. -/
def pyJoin (sep : Char) : List (List Char) → List Char
  | [] => []
  | [w] => w
  | w :: ws => w ++ sep :: pyJoin sep ws

/-- Normalization pipeline of `_normalize_column` over the character list:
NFKD + ASCII-ignore, newline replacement, strip, lower, regex substitution of
non-`[0-9a-z ]` runs by a space, split on whitespace, join with `_`. -/
def columnPipeline (l : List Char) : List Char :=
  pyJoin '_' (pySplit (reSubRuns (pyLower (pyStrip (replaceNewlines (asciiFold l))))))

/-- `_normalize_column` (app.py lines 34-45): normalize an Excel column name
to snake_case ASCII. -/
def _normalize_column (s : String) : String := ⟨columnPipeline s.data⟩

/-! ### String-level helpers used by the row normalization -/

/-- Does the first list occur at the head of the second? (`BEq`-style prefix
test used by the substring check below.) -/
def leadMatch : List Char → List Char → Bool
  | [], _ => true
  | _ :: _, [] => false
  | c :: cs, d :: ds => c == d && leadMatch cs ds

/-- Does `sub` occur as a contiguous sublist of the second argument? -/
def hasSub (sub : List Char) : List Char → Bool
  | [] => sub.isEmpty
  | c :: cs => leadMatch sub (c :: cs) || hasSub sub cs

/-- Models `Series.str.contains(pat, case=False, na=False)` for a plain
(non-regex-special) pattern: case-insensitive substring test. -/
def containsCI (s pat : String) : Bool := hasSub (pyLower pat.data) (pyLower s.data)

/-- `str.strip()` over `String`. -/
def pyStripS (s : String) : String := ⟨pyStrip s.data⟩

/-- `str.lower()` over `String`. -/
def pyLowerS (s : String) : String := ⟨pyLower s.data⟩

/-! ### Configuration constants (app.py lines 26-28) -/

def MAC_REFERENCE_DEPRECIATION : ℚ := 2145

def LICENSE_REFERENCE_DEPRECIATION : ℚ := 1200

def LOW_COST_THRESHOLD : ℚ := 800

/-- Essential item types of `classify_priority` (app.py line 93). -/
def ESSENTIAL_ITEM_TYPES : List String :=
  ["computador", "telefone", "monitor", "impressora"]

/-! ### Data model -/

/-- Raw record: one row of the source spreadsheet after the column renaming,
with the fields the normalization reads.  `usuario` and `numero_inventario`
are optional because the source guards exactly these two with `fillna`;
numeric cells are already coerced (the `astype(float)` parsing itself is not
the subject of any claim). -/
structure RawRecord where
  nome : String
  status : String
  grupo : String
  usuario : Option String
  numero_inventario : Option String
  tipo_item : String
  categoria : String
  valor_unitario : ℚ
  perc_depreciacao : ℚ
  vida_util_anos : ℚ
  depreciacao_unitaria : ℚ

/-- Canonical record produced by `load_inventory` (app.py lines 71-97). -/
structure Record where
  nome : String
  status : String
  grupo : String
  usuario : String
  numero_inventario : String
  tipo_item : String
  categoria : String
  valor_unitario : ℚ
  perc_depreciacao : ℚ
  vida_util_anos : ℚ
  depreciacao_unitaria : ℚ
  dep_referencia : ℚ
  is_mac : Bool
  is_license : Bool
  is_low_cost : Bool
  tem_usuario : Bool
  tem_inventario : Bool
  rastreados : Bool
  prioridade : String

/-- Row-wise semantics of the dataframe transformation in `load_inventory`
(app.py lines 71-97): value coercions, derived flags, the two sequential
`dep_referencia` overrides, and `classify_priority`. -/
def normalizeRecord (r : RawRecord) : Record :=
  let numero_inventario := pyStripS (r.numero_inventario.getD "Sem inventário")
  let usuario := pyStripS (r.usuario.getD "")
  let is_mac := containsCI r.nome "mac"
  let is_license := containsCI r.tipo_item "licenca"
  let tem_usuario := decide (0 < usuario.length)
  let tem_inventario := !containsCI numero_inventario "sem"
  let dep_afterDefault := r.depreciacao_unitaria
  let dep_afterMac := if is_mac then MAC_REFERENCE_DEPRECIATION else dep_afterDefault
  let dep_referencia := if is_license then LICENSE_REFERENCE_DEPRECIATION else dep_afterMac
  { nome := r.nome
    status := r.status
    grupo := r.grupo
    usuario := usuario
    numero_inventario := numero_inventario
    tipo_item := r.tipo_item
    categoria := pyStripS r.categoria
    valor_unitario := r.valor_unitario
    perc_depreciacao := r.perc_depreciacao
    vida_util_anos := r.vida_util_anos
    depreciacao_unitaria := r.depreciacao_unitaria
    dep_referencia := dep_referencia
    is_mac := is_mac
    is_license := is_license
    is_low_cost := decide (r.valor_unitario ≤ LOW_COST_THRESHOLD)
    tem_usuario := tem_usuario
    tem_inventario := tem_inventario
    rastreados := tem_usuario && tem_inventario
    prioridade :=
      if is_mac || is_license then "Premium controlado"
      else if pyLowerS r.tipo_item ∈ ESSENTIAL_ITEM_TYPES then "Essencial"
      else "Não essencial" }

/-- `load_inventory` restricted to its dataframe-transformation core
(app.py lines 52-98): the spreadsheet read and column renaming produce the
`RawRecord` fields, the rest is row-wise normalization. -/
def load_inventory (rows : List RawRecord) : List Record :=
  rows.map normalizeRecord

/-- Models pandas `Series.unique()`: distinct values in first-seen order. -/
def pdUnique : List String → List String
  | [] => []
  | a :: as => a :: (pdUnique as).filter (fun b => !(b == a))

/-- `apply_priority_filter` (app.py lines 256-259). -/
def apply_priority_filter (df : List Record) (selection : String) : List Record :=
  if selection = "Inventário completo" ∨ selection ∉ pdUnique (df.map Record.prioridade)
  then df
  else df.filter (fun r => r.prioridade == selection)

/-! ### Aggregator (`compute_insights`, app.py lines 112-155) -/

/-- Insertion into a list sorted by the boolean relation `le`. -/
def insertSorted {α : Type _} (le : α → α → Bool) (a : α) : List α → List α
  | [] => [a]
  | b :: bs => if le a b then a :: b :: bs else b :: insertSorted le a bs

/-- Insertion sort by the boolean relation `le` (a deterministic stand-in for
the pandas sorts; no claim below depends on the order of ties). -/
def sortedBy {α : Type _} (le : α → α → Bool) : List α → List α
  | [] => []
  | a :: as => insertSorted le a (sortedBy le as)

/-- Lexicographic comparison of character lists by code point (the order
pandas uses on string group keys). -/
def charListLe : List Char → List Char → Bool
  | [], _ => true
  | _ :: _, [] => false
  | c :: cs, d :: ds =>
    if c.toNat < d.toNat then true
    else if d.toNat < c.toNat then false
    else charListLe cs ds

/-- Code-point order on strings. -/
def strLeBool (a b : String) : Bool := charListLe a.data b.data

/-- Models `df.get(label)` on the canonical dataframe: the column when
`label` is one of the numeric canonical columns, `none` otherwise (text
columns are never the target of a `get` in the source). -/
def dfGetColumn (df : List Record) (label : String) : Option (List ℚ) :=
  if label = "valor_unitario" then some (df.map Record.valor_unitario)
  else if label = "perc_depreciacao" then some (df.map Record.perc_depreciacao)
  else if label = "vida_util_anos" then some (df.map Record.vida_util_anos)
  else if label = "depreciacao_unitaria" then some (df.map Record.depreciacao_unitaria)
  else if label = "dep_referencia" then some (df.map Record.dep_referencia)
  else none

/-- Models `Series.mean()` on a boolean mask: pandas returns NaN on an empty
series (0/0), modelled here as `none`. -/
def seriesMeanBool (l : List Bool) : Option ℚ :=
  if l.length = 0 then none else some ((l.count true : ℚ) / (l.length : ℚ))

/-- Metrics snapshot returned by `compute_insights`.  The two percentage
fields pandas computes with `Series.mean()` are `Option ℚ` because that mean
is NaN on an empty frame; every other field is total. -/
structure Insights where
  total_dep : ℚ
  patrimonio_total : ℚ
  avg_dep : ℚ
  mac_dep : ℚ
  license_dep : ℚ
  mac_count : Nat
  license_count : Nat
  tracked_pct : Option ℚ
  tracked_count : Nat
  low_cost_dep : ℚ
  low_cost_count : Nat
  low_cost_pct : Option ℚ
  sem_uso_pct : ℚ
  sem_uso_count : Nat
  centros : List (String × ℚ)
  top_centros_share : ℚ
  top_centros_names : String
  total_items : Nat

/-- `compute_insights` (app.py lines 112-155).  `total_items` as a local is
`len(df) or 1`; `total_dep` is the `df.get(...) or df.get(...) or zeros`
chain (neither queried label exists in the canonical schema); `centros` is
the per-group sum of `valor_unitario` sorted descending; `centros_total` is
`centros.sum() or 1`. -/
def compute_insights (df : List Record) : Insights :=
  let total_items := if df.length = 0 then 1 else df.length
  let total_dep := (((dfGetColumn df "Depreciação anual unitária (R$)").orElse
      (fun _ => dfGetColumn df "Depreciacao anual_% (mercado)")).getD
      (List.replicate df.length 0)).sum
  let patr_total := (df.map Record.valor_unitario).sum
  let avg_dep := total_dep / (total_items : ℚ)
  let macs := df.filter Record.is_mac
  let lics := df.filter Record.is_license
  let lows := df.filter Record.is_low_cost
  let tracked := df.filter Record.rastreados
  let sem_uso := (df.filter (fun r => r.status == "Sem Uso")).length
  let centros := sortedBy (fun a b => decide (b.2 ≤ a.2))
      ((sortedBy strLeBool (pdUnique (df.map Record.grupo))).map
        (fun g => (g, ((df.filter (fun r => r.grupo == g)).map Record.valor_unitario).sum)))
  let centros_total :=
    if (centros.map Prod.snd).sum = 0 then 1 else (centros.map Prod.snd).sum
  let top_centros := centros.take 2
  { total_dep := total_dep
    patrimonio_total := patr_total
    avg_dep := avg_dep
    mac_dep := (macs.map Record.dep_referencia).sum
    license_dep := (lics.map Record.dep_referencia).sum
    mac_count := macs.length
    license_count := lics.length
    tracked_pct := (seriesMeanBool (df.map Record.rastreados)).map (fun m => m * 100)
    tracked_count := tracked.length
    low_cost_dep := (lows.map Record.dep_referencia).sum
    low_cost_count := lows.length
    low_cost_pct := (seriesMeanBool (df.map Record.is_low_cost)).map (fun m => m * 100)
    sem_uso_pct := (sem_uso : ℚ) / (total_items : ℚ) * 100
    sem_uso_count := sem_uso
    centros := centros
    top_centros_share :=
      if top_centros ≠ [] then (top_centros.map Prod.snd).sum / centros_total * 100 else 0
    top_centros_names := String.intercalate ", " (top_centros.map Prod.fst)
    total_items := df.length }

/-! ### Concrete rows used as inputs of counterexamples and witnesses -/

/-- Ordinary asset: not a mac, not a license, tracked, unit depreciation 300. -/
def rawPlain : RawRecord :=
  { nome := "Cadeira Presidente"
    status := "Em uso"
    grupo := "TI"
    usuario := some "Ana"
    numero_inventario := some "INV-0001"
    tipo_item := "Mobiliario"
    categoria := "Mobiliario"
    valor_unitario := 500
    perc_depreciacao := 10
    vida_util_anos := 5
    depreciacao_unitaria := 300 }

/-- Row that is simultaneously a mac and a license. -/
def rawMacLicense : RawRecord :=
  { rawPlain with nome := "MacBook Pro", tipo_item := "Licenca Adobe" }

/-- Mac whose item type is in the essential set. -/
def rawMacComputador : RawRecord :=
  { rawPlain with nome := "MacBook Air", tipo_item := "Computador" }

/-- Row whose raw inventory code is present but blank. -/
def rawBlankInv : RawRecord :=
  { rawPlain with numero_inventario := some "   " }

/-- Row with a missing raw inventory code. -/
def rawNoInv : RawRecord :=
  { rawPlain with numero_inventario := none }

/-- Row whose item type contains "licen" but not "licenca". -/
def rawLicenseEn : RawRecord :=
  { rawPlain with tipo_item := "License Server" }

/-- Row with a negative raw unit value. -/
def rawNegative : RawRecord :=
  { rawPlain with valor_unitario := -1 }

/-! ### Helper lemmas -/

theorem mem_pdUnique {a : String} : ∀ {l : List String}, a ∈ pdUnique l ↔ a ∈ l := by
  intro l
  induction l with
  | nil => simp [pdUnique]
  | cons b bs ih =>
    simp only [pdUnique, List.mem_cons, List.mem_filter, ih, Bool.not_eq_true',
      beq_eq_false_iff_ne, ne_eq]
    constructor
    · rintro (rfl | ⟨hmem, _⟩)
      · exact Or.inl rfl
      · exact Or.inr hmem
    · rintro (rfl | h)
      · exact Or.inl rfl
      · rcases eq_or_ne a b with rfl | hne
        · exact Or.inl rfl
        · exact Or.inr ⟨h, hne⟩

theorem str_pos_iff (s : String) : 0 < s.length ↔ s ≠ "" := by
  constructor
  · intro h hc
    subst hc
    exact absurd h (by decide)
  · intro h
    by_contra hle
    push_neg at hle
    have hz : s.data.length = 0 := Nat.le_zero.mp hle
    exact h (String.ext (List.length_eq_zero.mp hz))

/-! ### Claim theorems -/

/-- C1 (code_bug evidence): on the canonical singleton collection built from
`rawPlain`, whose only record has `reference_depreciation = 300`, the
aggregate's `total_dep` is `0`, not the sum `300` of `dep_referencia`: the
two column labels the `df.get(...)` chain queries do not exist in the
canonical schema, so the zero-series fallback is always summed. -/
theorem C1_total_dep_is_zero_not_reference_sum :
    (compute_insights (load_inventory [rawPlain])).total_dep = 0 ∧
    ((load_inventory [rawPlain]).map Record.dep_referencia).sum = 300 := by
  constructor
  · norm_num +decide [compute_insights, dfGetColumn, load_inventory]
  · norm_num +decide [load_inventory, normalizeRecord, rawPlain]

/-- C2 (code_bug evidence): on the empty collection the aggregate returns
`total_items = 0`, and the idle share and top-groups share are `0`, but the
tracked share and the low-cost share are NaN (`none`): they are computed with
`Series.mean()`, which is `0/0` on an empty mask — the claim asks for `0`. -/
theorem C2_empty_aggregate_nan_shares :
    (compute_insights []).total_items = 0 ∧
    (compute_insights []).sem_uso_pct = 0 ∧
    (compute_insights []).top_centros_share = 0 ∧
    (compute_insights []).tracked_pct = none ∧
    (compute_insights []).low_cost_pct = none := by
  norm_num [compute_insights, seriesMeanBool, pdUnique, sortedBy]

/-- C3: for every normalized record, `is_license = true` forces
`dep_referencia = LICENSE_REFERENCE_DEPRECIATION` (also when `is_mac` holds,
because the license override is applied after the mac override); `is_mac`
without `is_license` forces `MAC_REFERENCE_DEPRECIATION`; with neither flag
the reference depreciation is the unit depreciation. -/
theorem C3_reference_depreciation_override (r : RawRecord) :
    ((normalizeRecord r).is_license = true →
      (normalizeRecord r).dep_referencia = LICENSE_REFERENCE_DEPRECIATION) ∧
    ((normalizeRecord r).is_mac = true → (normalizeRecord r).is_license = false →
      (normalizeRecord r).dep_referencia = MAC_REFERENCE_DEPRECIATION) ∧
    ((normalizeRecord r).is_mac = false → (normalizeRecord r).is_license = false →
      (normalizeRecord r).dep_referencia = (normalizeRecord r).depreciacao_unitaria) := by
  refine ⟨?_, ?_, ?_⟩
  · intro h
    simp only [normalizeRecord] at h ⊢
    simp [h]
  · intro hm hl
    simp only [normalizeRecord] at hm hl ⊢
    simp [hm, hl]
  · intro hm hl
    simp only [normalizeRecord] at hm hl ⊢
    simp [hm, hl]

/-- C3 witness: a record that is both a mac and a license ends with the
license reference depreciation. -/
theorem C3_reference_depreciation_override_witness :
    (normalizeRecord rawMacLicense).is_mac = true ∧
    (normalizeRecord rawMacLicense).is_license = true ∧
    (normalizeRecord rawMacLicense).dep_referencia = LICENSE_REFERENCE_DEPRECIATION :=
  ⟨by decide, by decide,
    (C3_reference_depreciation_override rawMacLicense).1 (by decide)⟩

/-- C4: priority is assigned by first match: `is_mac` or `is_license` gives
`Premium controlado` (even for an essential item type); otherwise a
lower-cased item type in the essential set gives `Essencial`; otherwise
`Não essencial`. -/
theorem C4_priority_precedence (r : RawRecord) :
    (((normalizeRecord r).is_mac || (normalizeRecord r).is_license) = true →
      (normalizeRecord r).prioridade = "Premium controlado") ∧
    (((normalizeRecord r).is_mac || (normalizeRecord r).is_license) = false →
      pyLowerS (normalizeRecord r).tipo_item ∈ ESSENTIAL_ITEM_TYPES →
      (normalizeRecord r).prioridade = "Essencial") ∧
    (((normalizeRecord r).is_mac || (normalizeRecord r).is_license) = false →
      pyLowerS (normalizeRecord r).tipo_item ∉ ESSENTIAL_ITEM_TYPES →
      (normalizeRecord r).prioridade = "Não essencial") := by
  refine ⟨?_, ?_, ?_⟩
  · intro h
    simp only [normalizeRecord] at h ⊢
    simp [h]
  · intro h hmem
    simp only [normalizeRecord] at h hmem ⊢
    simp [h, hmem]
  · intro h hmem
    simp only [normalizeRecord] at h hmem ⊢
    simp [h, hmem]

/-- C4 witness: a mac whose item type is in the essential set still
classifies as `Premium controlado`. -/
theorem C4_priority_precedence_witness :
    pyLowerS (normalizeRecord rawMacComputador).tipo_item ∈ ESSENTIAL_ITEM_TYPES ∧
    (normalizeRecord rawMacComputador).prioridade = "Premium controlado" :=
  ⟨by decide, (C4_priority_precedence rawMacComputador).1 (by decide)⟩

/-- C5: the priority filter returns the collection unchanged when the
selection is the "all" sentinel `Inventário completo` or matches no record's
priority, and otherwise returns exactly the records whose priority equals the
selection. -/
theorem C5_filter_by_priority (df : List Record) (sel : String) :
    ((sel = "Inventário completo" ∨ sel ∉ df.map Record.prioridade) →
      apply_priority_filter df sel = df) ∧
    (sel ≠ "Inventário completo" → sel ∈ df.map Record.prioridade →
      apply_priority_filter df sel = df.filter (fun r => r.prioridade == sel)) := by
  constructor
  · intro h
    have hc : sel = "Inventário completo" ∨ sel ∉ pdUnique (df.map Record.prioridade) := by
      rcases h with h | h
      · exact Or.inl h
      · exact Or.inr fun hc => h (mem_pdUnique.mp hc)
    simp only [apply_priority_filter, if_pos hc]
  · intro h1 h2
    have hc : ¬(sel = "Inventário completo" ∨ sel ∉ pdUnique (df.map Record.prioridade)) := by
      push_neg
      exact ⟨h1, mem_pdUnique.mpr h2⟩
    simp only [apply_priority_filter, if_neg hc]

/-- C5 witness: filtering a two-record collection by the priority of its
second record keeps exactly the matching records. -/
theorem C5_filter_by_priority_witness :
    apply_priority_filter (load_inventory [rawPlain, rawMacLicense]) "Premium controlado" =
      (load_inventory [rawPlain, rawMacLicense]).filter
        (fun r => r.prioridade == "Premium controlado") :=
  (C5_filter_by_priority (load_inventory [rawPlain, rawMacLicense])
    "Premium controlado").2 (by decide) (by decide)

/-- C6: for every normalized record, `rastreados` is the conjunction of
"owner text non-empty" and "inventory code does not match the absent-code
marker" (case-insensitive substring "sem"). -/
theorem C6_is_tracked_conjunction (r : RawRecord) :
    (normalizeRecord r).rastreados =
      (decide ((normalizeRecord r).usuario ≠ "") &&
        !containsCI (normalizeRecord r).numero_inventario "sem") := by
  simp only [normalizeRecord]
  congr 1
  exact decide_eq_decide.mpr (str_pos_iff _)

/-- C7 counterexample: a raw row whose inventory-code cell holds a blank
string yields an empty canonical `numero_inventario` — not the sentinel and
not a non-empty string, contradicting the claim. -/
theorem C7_blank_code_counterexample :
    (normalizeRecord rawBlankInv).numero_inventario = "" := by decide

/-- C7 amended: a missing (null) inventory code becomes the sentinel
`Sem inventário`; a present value is only trimmed, so a blank raw value stays
empty. -/
theorem C7_inventory_code_amended (r : RawRecord) :
    (r.numero_inventario = none →
      (normalizeRecord r).numero_inventario = "Sem inventário") ∧
    (∀ s, r.numero_inventario = some s →
      (normalizeRecord r).numero_inventario = pyStripS s) := by
  constructor
  · intro h
    simp only [normalizeRecord, h, Option.getD]
    decide
  · intro s h
    simp [normalizeRecord, h]

/-- C7 witness: a missing inventory code becomes the sentinel. -/
theorem C7_inventory_code_amended_witness :
    rawNoInv.numero_inventario = none ∧
    (normalizeRecord rawNoInv).numero_inventario = "Sem inventário" :=
  ⟨rfl, (C7_inventory_code_amended rawNoInv).1 rfl⟩

/-- C8 counterexample: an item type containing "licen" but not "licenca"
(the substring the code actually tests) is not flagged as a license, so the
claimed equivalence with "contains licen" fails. -/
theorem C8_licen_counterexample :
    ¬ ((normalizeRecord rawLicenseEn).is_license = true ↔
        containsCI (normalizeRecord rawLicenseEn).tipo_item "licen" = true) := by
  decide

/-- C8 amended: `is_license` holds iff the item type contains the substring
"licenca" case-insensitively. -/
theorem C8_is_license_amended (r : RawRecord) :
    (normalizeRecord r).is_license =
      containsCI ((normalizeRecord r).tipo_item) "licenca" := by
  simp [normalizeRecord]

/-- C9 counterexample: the normalization performs no clamping, so a negative
raw unit value survives into the canonical record. -/
theorem C9_negative_value_counterexample :
    (normalizeRecord rawNegative).valor_unitario < 0 := by
  norm_num [normalizeRecord, rawNegative, rawPlain]

/-- C9 amended: when the raw numeric cells are non-negative, the canonical
`valor_unitario`, `depreciacao_unitaria` and `dep_referencia` are all
non-negative (the two override constants are positive). -/
theorem C9_nonneg_amended (r : RawRecord) (h1 : 0 ≤ r.valor_unitario)
    (h2 : 0 ≤ r.depreciacao_unitaria) :
    0 ≤ (normalizeRecord r).valor_unitario ∧
    0 ≤ (normalizeRecord r).depreciacao_unitaria ∧
    0 ≤ (normalizeRecord r).dep_referencia := by
  refine ⟨?_, ?_, ?_⟩
  · simpa [normalizeRecord] using h1
  · simpa [normalizeRecord] using h2
  · simp only [normalizeRecord]
    split_ifs
    · norm_num [LICENSE_REFERENCE_DEPRECIATION]
    · norm_num [MAC_REFERENCE_DEPRECIATION]
    · exact h2

/-- C9 witness: the amended statement at a concrete non-negative row. -/
theorem C9_nonneg_amended_witness :
    0 ≤ (normalizeRecord rawPlain).valor_unitario ∧
    0 ≤ (normalizeRecord rawPlain).depreciacao_unitaria ∧
    0 ≤ (normalizeRecord rawPlain).dep_referencia :=
  C9_nonneg_amended rawPlain (by norm_num [rawPlain]) (by norm_num [rawPlain])

theorem pySplitF_nil (f : Nat) : pySplitF f [] = [] := by
  cases f <;> rfl

theorem pySplitF_fuel : ∀ (f₁ f₂ : Nat) (l : List Char), l.length ≤ f₁ → l.length ≤ f₂ →
    pySplitF f₁ l = pySplitF f₂ l := by
  intro f₁
  induction f₁ with
  | zero =>
    intro f₂ l h1 _
    have : l = [] := List.length_eq_zero.mp (Nat.le_zero.mp h1)
    subst this
    rw [pySplitF_nil, pySplitF_nil]
  | succ f ih =>
    intro f₂ l h1 h2
    cases l with
    | nil => rw [pySplitF_nil, pySplitF_nil]
    | cons c cs =>
      cases f₂ with
      | zero =>
        exact absurd h2 (by simp)
      | succ f₂ =>
        simp only [pySplitF]
        by_cases h : pyIsSpace c = true
        · rw [if_pos h, if_pos h]
          exact ih f₂ cs (by simpa using h1) (by simpa using h2)
        · rw [if_neg h, if_neg h]
          have hlen := (List.dropWhile_sublist (fun d => !pyIsSpace d) (l := cs)).length_le
          congr 1
          exact ih f₂ _ (by simp at h1; omega) (by simp at h2; omega)

theorem pySplit_cons_space {c : Char} {cs : List Char} (h : pyIsSpace c = true) :
    pySplit (c :: cs) = pySplit cs := by
  show pySplitF (cs.length + 1) (c :: cs) = pySplitF cs.length cs
  simp only [pySplitF, if_pos h]

theorem pySplit_cons_word {c : Char} {cs : List Char} (h : pyIsSpace c = false) :
    pySplit (c :: cs) =
      (c :: cs.takeWhile (fun d => !pyIsSpace d)) ::
        pySplit (cs.dropWhile (fun d => !pyIsSpace d)) := by
  show pySplitF (cs.length + 1) (c :: cs) = _
  have hcond : ¬ (pyIsSpace c = true) := by simp [h]
  simp only [pySplitF, if_neg hcond]
  congr 1
  exact pySplitF_fuel cs.length _ _
    (List.dropWhile_sublist (fun d => !pyIsSpace d) (l := cs)).length_le le_rfl



theorem isLowerAlnum_not_space {c : Char} (h : isLowerAlnum c = true) :
    pyIsSpace c = false := by
  simp only [isLowerAlnum, pyIsSpace, Bool.or_eq_true, Bool.and_eq_true, decide_eq_true_eq,
    Bool.or_eq_false_iff, Bool.and_eq_false_iff, decide_eq_false_iff_not] at *
  omega

theorem isLowerAlnum_of_alnumOrSpace {c : Char} (h1 : isAlnumOrSpace c = true)
    (h2 : pyIsSpace c = false) : isLowerAlnum c = true := by
  simp only [isAlnumOrSpace, isLowerAlnum, pyIsSpace, Bool.or_eq_true, Bool.and_eq_true,
    decide_eq_true_eq, Bool.or_eq_false_iff, Bool.and_eq_false_iff,
    decide_eq_false_iff_not] at *
  omega

theorem alnumOrSpace_of_isLowerAlnum {c : Char} (h : isLowerAlnum c = true) :
    isAlnumOrSpace c = true := by
  simp [isAlnumOrSpace, h]

theorem mem_takeWhile_pred {α : Type _} {p : α → Bool} :
    ∀ {l : List α} {a : α}, a ∈ l.takeWhile p → p a = true := by
  intro l
  induction l with
  | nil => intro a h; simp [List.takeWhile] at h
  | cons b bs ih =>
    intro a h
    rw [List.takeWhile_cons] at h
    by_cases hb : p b = true
    · rw [if_pos hb] at h
      rcases List.mem_cons.mp h with rfl | h
      · exact hb
      · exact ih h
    · rw [if_neg hb] at h
      simp at h

theorem takeWhile_append_all {α : Type _} {p : α → Bool} :
    ∀ (w rest : List α), (∀ c ∈ w, p c = true) →
      (w ++ rest).takeWhile p = w ++ rest.takeWhile p := by
  intro w
  induction w with
  | nil => simp
  | cons b bs ih =>
    intro rest h
    have hb : p b = true := h b (List.mem_cons_self b bs)
    simp only [List.cons_append, List.takeWhile_cons, if_pos hb]
    rw [ih rest fun c hc => h c (List.mem_cons_of_mem b hc)]

theorem dropWhile_append_all {α : Type _} {p : α → Bool} :
    ∀ (w rest : List α), (∀ c ∈ w, p c = true) →
      (w ++ rest).dropWhile p = rest.dropWhile p := by
  intro w
  induction w with
  | nil => simp
  | cons b bs ih =>
    intro rest h
    have hb : p b = true := h b (List.mem_cons_self b bs)
    simp only [List.cons_append, List.dropWhile_cons, if_pos hb]
    exact ih rest fun c hc => h c (List.mem_cons_of_mem b hc)

theorem pySplit_words : ∀ (n : Nat) (l : List Char), l.length ≤ n →
    ∀ w ∈ pySplit l, w ≠ [] ∧ ∀ c ∈ w, pyIsSpace c = false ∧ c ∈ l := by
  intro n
  induction n with
  | zero =>
    intro l h1 w hw
    have : l = [] := List.length_eq_zero.mp (Nat.le_zero.mp h1)
    subst this
    simp [pySplit, pySplitF] at hw
  | succ n ih =>
    intro l h1 w hw
    cases l with
    | nil => simp [pySplit, pySplitF] at hw
    | cons c cs =>
      by_cases h : pyIsSpace c = true
      · rw [pySplit_cons_space h] at hw
        obtain ⟨hne, hch⟩ := ih cs (by simpa using h1) w hw
        exact ⟨hne, fun d hd => ⟨(hch d hd).1, List.mem_cons_of_mem c (hch d hd).2⟩⟩
      · have h' : pyIsSpace c = false := by simpa using h
        rw [pySplit_cons_word h'] at hw
        rcases List.mem_cons.mp hw with rfl | hw
        · refine ⟨List.cons_ne_nil _ _, ?_⟩
          intro d hd
          rcases List.mem_cons.mp hd with rfl | hd
          · exact ⟨h', List.mem_cons_self d cs⟩
          · have hp := mem_takeWhile_pred hd
            have hmem := (List.takeWhile_sublist (fun d => !pyIsSpace d) (l := cs)).subset hd
            exact ⟨by simpa using hp, List.mem_cons_of_mem c hmem⟩
        · have hlen := (List.dropWhile_sublist (fun d => !pyIsSpace d) (l := cs)).length_le
          obtain ⟨hne, hch⟩ := ih _ (by simp at h1 ⊢; omega) w hw
          refine ⟨hne, fun d hd => ⟨(hch d hd).1, ?_⟩⟩
          have := (List.dropWhile_sublist (fun d => !pyIsSpace d) (l := cs)).subset (hch d hd).2
          exact List.mem_cons_of_mem c this



theorem mem_reSubAux {c : Char} : ∀ (b : Bool) (l : List Char),
    c ∈ reSubAux b l → isAlnumOrSpace c = true := by
  intro b l
  induction l generalizing b with
  | nil => simp [reSubAux]
  | cons d ds ih =>
    intro h
    simp only [reSubAux] at h
    by_cases hd : isAlnumOrSpace d = true
    · rw [if_pos hd] at h
      rcases List.mem_cons.mp h with rfl | h
      · exact hd
      · exact ih false h
    · rw [if_neg hd] at h
      cases b with
      | true => exact ih true (by simpa using h)
      | false =>
        simp only [Bool.false_eq_true, if_false] at h
        rcases List.mem_cons.mp h with rfl | h
        · decide
        · exact ih true h

theorem reSubAux_keep : ∀ (w rest : List Char), (∀ c ∈ w, isAlnumOrSpace c = true) →
    reSubAux false (w ++ rest) = w ++ reSubAux false rest := by
  intro w
  induction w with
  | nil => simp
  | cons b bs ih =>
    intro rest h
    have hb : isAlnumOrSpace b = true := h b (List.mem_cons_self b bs)
    simp only [List.cons_append, reSubAux, if_pos hb]
    congr 1
    exact ih rest fun c hc => h c (List.mem_cons_of_mem b hc)

theorem reSubAux_state (b₁ b₂ : Bool) (l : List Char)
    (h : l = [] ∨ ∃ d t, l = d :: t ∧ isAlnumOrSpace d = true) :
    reSubAux b₁ l = reSubAux b₂ l := by
  rcases h with rfl | ⟨d, t, rfl, hd⟩
  · cases b₁ <;> cases b₂ <;> rfl
  · simp only [reSubAux, if_pos hd]

theorem mem_pyJoin {c : Char} (sep : Char) : ∀ (ws : List (List Char)),
    c ∈ pyJoin sep ws → c = sep ∨ ∃ w ∈ ws, c ∈ w := by
  intro ws
  induction ws with
  | nil => simp [pyJoin]
  | cons w vs ih =>
    intro h
    cases vs with
    | nil =>
      exact Or.inr ⟨w, List.mem_cons_self _ _, h⟩
    | cons v vs' =>
      simp only [pyJoin] at h
      rcases List.mem_append.mp h with h | h
      · exact Or.inr ⟨w, List.mem_cons_self _ _, h⟩
      · rcases List.mem_cons.mp h with rfl | h
        · exact Or.inl rfl
        · rcases ih h with h | ⟨u, hu, hc⟩
          · exact Or.inl h
          · exact Or.inr ⟨u, List.mem_cons_of_mem _ hu, hc⟩

theorem pyJoin_head (v : List Char) (vs : List (List Char)) (hv : v ≠ []) :
    ∃ d t, pyJoin '_' (v :: vs) = d :: t ∧ d ∈ v := by
  cases v with
  | nil => exact absurd rfl hv
  | cons d v' =>
    cases vs with
    | nil => exact ⟨d, v', rfl, List.mem_cons_self _ _⟩
    | cons u us => exact ⟨d, v' ++ '_' :: pyJoin '_' (u :: us), rfl, List.mem_cons_self _ _⟩

theorem reSub_join : ∀ (ws : List (List Char)),
    (∀ w ∈ ws, w ≠ [] ∧ ∀ c ∈ w, isLowerAlnum c = true) →
    reSubRuns (pyJoin '_' ws) = pyJoin ' ' ws := by
  intro ws
  induction ws with
  | nil => intro _; rfl
  | cons w vs ih =>
    intro h
    obtain ⟨hwne, hwch⟩ := h w (List.mem_cons_self _ _)
    have hallw : ∀ c ∈ w, isAlnumOrSpace c = true :=
      fun c hc => alnumOrSpace_of_isLowerAlnum (hwch c hc)
    cases vs with
    | nil =>
      show reSubAux false (pyJoin '_' [w]) = pyJoin ' ' [w]
      have h0 : reSubAux false ([] : List Char) = [] := rfl
      have hk : reSubAux false (w ++ []) = w ++ reSubAux false [] := reSubAux_keep w [] hallw
      rw [List.append_nil] at hk
      show reSubAux false w = w
      rw [hk, h0, List.append_nil]
    | cons v vs' =>
      obtain ⟨hvne, hvch⟩ := h v (List.mem_cons_of_mem _ (List.mem_cons_self _ _))
      show reSubAux false (w ++ '_' :: pyJoin '_' (v :: vs')) = w ++ ' ' :: pyJoin ' ' (v :: vs')
      rw [reSubAux_keep w _ hallw]
      congr 1
      have hu : isAlnumOrSpace '_' = false := by decide
      simp only [reSubAux, if_neg (by simp [hu] : ¬ (isAlnumOrSpace '_' = true)),
        Bool.false_eq_true, if_false]
      congr 1
      obtain ⟨d, t, hdt, hdv⟩ := pyJoin_head v vs' hvne
      have hstate : reSubAux true (pyJoin '_' (v :: vs')) = reSubAux false (pyJoin '_' (v :: vs')) := by
        apply reSubAux_state
        exact Or.inr ⟨d, t, hdt, alnumOrSpace_of_isLowerAlnum (hvch d hdv)⟩
      rw [hstate]
      exact ih fun u hu => h u (List.mem_cons_of_mem _ hu)



theorem pySplit_join : ∀ (ws : List (List Char)),
    (∀ w ∈ ws, w ≠ [] ∧ ∀ c ∈ w, pyIsSpace c = false) →
    pySplit (pyJoin ' ' ws) = ws := by
  intro ws
  induction ws with
  | nil => intro _; rfl
  | cons w vs ih =>
    intro h
    obtain ⟨hwne, hwch⟩ := h w (List.mem_cons_self _ _)
    have hwp : ∀ c ∈ w, (fun d => !pyIsSpace d) c = true := by
      intro c hc
      simp [hwch c hc]
    cases vs with
    | nil =>
      show pySplit (pyJoin ' ' [w]) = [w]
      cases w with
      | nil => exact absurd rfl hwne
      | cons c w' =>
        have hc : pyIsSpace c = false := hwch c (List.mem_cons_self _ _)
        show pySplit (c :: w') = [c :: w']
        rw [pySplit_cons_word hc]
        have ht : w'.takeWhile (fun d => !pyIsSpace d) = w' := by
          have := takeWhile_append_all (p := fun d => !pyIsSpace d) w' []
            (fun d hd => hwp d (List.mem_cons_of_mem c hd))
          simpa using this
        have hd : w'.dropWhile (fun d => !pyIsSpace d) = [] := by
          have := dropWhile_append_all (p := fun d => !pyIsSpace d) w' []
            (fun d hd => hwp d (List.mem_cons_of_mem c hd))
          simpa using this
        rw [ht, hd]
        rfl
    | cons v vs' =>
      show pySplit (w ++ ' ' :: pyJoin ' ' (v :: vs')) = w :: v :: vs'
      cases w with
      | nil => exact absurd rfl hwne
      | cons c w' =>
        have hc : pyIsSpace c = false := hwch c (List.mem_cons_self _ _)
        have hw'p : ∀ d ∈ w', (fun d => !pyIsSpace d) d = true :=
          fun d hd => hwp d (List.mem_cons_of_mem c hd)
        show pySplit (c :: (w' ++ ' ' :: pyJoin ' ' (v :: vs'))) = (c :: w') :: v :: vs'
        rw [pySplit_cons_word hc]
        have ht : (w' ++ ' ' :: pyJoin ' ' (v :: vs')).takeWhile (fun d => !pyIsSpace d) = w' := by
          rw [takeWhile_append_all w' _ hw'p]
          have : (' ' :: pyJoin ' ' (v :: vs')).takeWhile (fun d => !pyIsSpace d) = [] := by
            rw [List.takeWhile_cons, if_neg (by decide)]
          rw [this, List.append_nil]
        have hd : (w' ++ ' ' :: pyJoin ' ' (v :: vs')).dropWhile (fun d => !pyIsSpace d) =
            ' ' :: pyJoin ' ' (v :: vs') := by
          rw [dropWhile_append_all w' _ hw'p]
          rw [List.dropWhile_cons, if_neg (by decide)]
        rw [ht, hd, pySplit_cons_space (by decide)]
        rw [ih fun u hu => h u (List.mem_cons_of_mem _ hu)]

theorem mapIdOn {α : Type _} {f : α → α} :
    ∀ (l : List α), (∀ a ∈ l, f a = a) → l.map f = l := by
  intro l
  induction l with
  | nil => intro _; rfl
  | cons b bs ih =>
    intro h
    simp only [List.map_cons]
    rw [h b (List.mem_cons_self _ _), ih fun a ha => h a (List.mem_cons_of_mem b ha)]

theorem asciiFold_ascii : ∀ (l : List Char), (∀ c ∈ l, c.toNat < 128) → asciiFold l = l := by
  intro l
  induction l with
  | nil => intro _; rfl
  | cons b bs ih =>
    intro h
    show (asciiFoldChar b ++ (bs.map asciiFoldChar).flatten) = b :: bs
    rw [show asciiFoldChar b = [b] from by
      unfold asciiFoldChar; rw [if_pos (h b (List.mem_cons_self _ _))]]
    have : asciiFold bs = bs := ih fun c hc => h c (List.mem_cons_of_mem b hc)
    simpa [asciiFold] using this

theorem dropWhile_all_false {α : Type _} {p : α → Bool} (l : List α)
    (h : ∀ a ∈ l, p a = false) : l.dropWhile p = l := by
  cases l with
  | nil => rfl
  | cons b bs =>
    rw [List.dropWhile_cons, if_neg (by simp [h b (List.mem_cons_self _ _)])]

theorem pyStrip_nospace (l : List Char) (h : ∀ c ∈ l, pyIsSpace c = false) :
    pyStrip l = l := by
  unfold pyStrip
  rw [dropWhile_all_false l h]
  rw [dropWhile_all_false l.reverse (fun c hc => h c (List.mem_reverse.mp hc))]
  exact List.reverse_reverse l



theorem columnPipeline_idem (l : List Char) :
    columnPipeline (columnPipeline l) = columnPipeline l := by
  unfold columnPipeline
  set base := reSubRuns (pyLower (pyStrip (replaceNewlines (asciiFold l)))) with hbase
  have hbase_ch : ∀ c ∈ base, isAlnumOrSpace c = true := fun c hc => mem_reSubAux false _ hc
  have hwords : ∀ w ∈ pySplit base, w ≠ [] ∧ ∀ c ∈ w, isLowerAlnum c = true := by
    intro w hw
    obtain ⟨hne, hch⟩ := pySplit_words base.length base le_rfl w hw
    exact ⟨hne, fun c hc =>
      isLowerAlnum_of_alnumOrSpace (hbase_ch c (hch c hc).2) (hch c hc).1⟩
  set ws := pySplit base with hws
  set out := pyJoin '_' ws with hout
  have hchars : ∀ c ∈ out, isLowerAlnum c = true ∨ c = '_' := by
    intro c hc
    rcases mem_pyJoin '_' ws hc with rfl | ⟨w, hw, hcw⟩
    · exact Or.inr rfl
    · exact Or.inl ((hwords w hw).2 c hcw)
  have hlt : ∀ c ∈ out, c.toNat < 128 := by
    intro c hc
    rcases hchars c hc with h | rfl
    · simp only [isLowerAlnum, Bool.or_eq_true, Bool.and_eq_true, decide_eq_true_eq] at h
      omega
    · decide
  have hnl : ∀ c ∈ out, ¬(c = '\n') := by
    intro c hc hc'
    subst hc'
    rcases hchars _ hc with h | h
    · exact absurd h (by decide)
    · exact absurd h (by decide)
  have hnospace : ∀ c ∈ out, pyIsSpace c = false := by
    intro c hc
    rcases hchars c hc with h | rfl
    · exact isLowerAlnum_not_space h
    · decide
  have hlower : ∀ c ∈ out, lowerChar c = c := by
    intro c hc
    rcases hchars c hc with h | rfl
    · simp only [isLowerAlnum, Bool.or_eq_true, Bool.and_eq_true, decide_eq_true_eq] at h
      unfold lowerChar
      rw [if_neg]
      omega
    · decide
  rw [asciiFold_ascii out hlt]
  rw [show replaceNewlines out = out from mapIdOn out (fun c hc => by
    simp [replaceNewlines, if_neg (hnl c hc)])]
  rw [pyStrip_nospace out hnospace]
  rw [show pyLower out = out from mapIdOn out hlower]
  rw [show reSubRuns out = pyJoin ' ' ws from reSub_join ws hwords]
  rw [pySplit_join ws (fun w hw =>
    ⟨(hwords w hw).1, fun c hc => isLowerAlnum_not_space ((hwords w hw).2 c hc)⟩)]

/-- C10: the column-label normalization is idempotent — applying
`_normalize_column` to its own output returns that output unchanged (outputs
are words of digits and lowercase letters joined by underscores, and such
strings are fixed points of every stage of the pipeline). -/
theorem C10_normalize_column_idempotent (s : String) :
    _normalize_column (_normalize_column s) = _normalize_column s := by
  unfold _normalize_column
  exact congrArg String.mk (columnPipeline_idem s.data)

end CaliaDash
